import Mathlib

/-!
Shallow embedding of `src/index.js` of the peipsi-birds-scraper repository.

The source drives a Playwright page: it scans anchors on the listing page
(`getItems`), classifies each candidate token as an order marker, a family
marker, or a leaf URL (`extractOrder` / `extractFamily` and the `if` chain in
`getBirdsData`), visits leaf pages and extracts four text fields
(`extractRusName`, `extractLatName`, `extractSigns`, `extractHabitat`), and
accumulates bird records carrying the running classification context.

The embedding models the page as an oracle `String → Option PageDoc` (a
document per URL; `none` means navigation fails), JavaScript regular
expressions as a small backtracking matcher faithful to the three literal
patterns of the source, and JavaScript runtime errors (`TypeError` from
`undefined.toUpperCase()` or `null[0]`, selector failures of `$eval`,
navigation failures of `goto`) as an explicit error type.
-/

namespace PeipsiBirds

/-- Errors a traversal can abort with: a thrown JS `TypeError`
(`undefined.toUpperCase()`, `null[0]`), a Playwright `$eval` failure when a
selector matches no element, or a `page.goto` navigation failure. -/
inductive JsError where
  | typeError
  | selectorError
  | navigationFailure
deriving DecidableEq, Repr

/-- JS `\s` (whitespace class), restricted to the ASCII whitespace characters
that can occur in this site's text. -/
def isJsWs (c : Char) : Bool :=
  c = ' ' || c = '\t' || c = '\n' || c = '\r' || c = '\x0b' || c = '\x0c'

/-- JS `String.prototype.toUpperCase`, restricted to the alphabets the scraper
touches (ASCII Latin and Russian Cyrillic); every other character maps to
itself, as in JS for characters without an uppercase mapping. -/
def jsCharToUpper (c : Char) : Char :=
  if 'a' ≤ c ∧ c ≤ 'z' then Char.ofNat (c.toNat - 32)
  else if 'а' ≤ c ∧ c ≤ 'я' then Char.ofNat (c.toNat - 32)
  else if c = 'ё' then 'Ё'
  else c

/-- Model of `s.toUpperCase()`. -/
def jsToUpperCase (s : String) : String :=
  ⟨s.data.map jsCharToUpper⟩

/-- Model of `s.trim()`: strip leading and trailing whitespace. -/
def jsTrim (s : String) : String :=
  ⟨((s.data.dropWhile isJsWs).reverse.dropWhile isJsWs).reverse⟩

/-- Remove the first occurrence of `pat` from the character list (the
semantics of JS `String.prototype.replace` with a string pattern and an empty
replacement): scan left to right, drop the first position where `pat` is a
prefix, leave everything else untouched. -/
def replaceFirstAux (pat : List Char) : List Char → List Char
  | [] => []
  | c :: cs =>
    if pat.isPrefixOf (c :: cs) then List.drop pat.length (c :: cs)
    else c :: replaceFirstAux pat cs

/-- Model of `s.replace(pat, '')` for a string pattern `pat`. -/
def jsReplaceFirst (s pat : String) : String :=
  ⟨replaceFirstAux pat.data s.data⟩

/-- JS truthiness of a `string | null` value: `null` and the empty string are
falsy. -/
def jsTruthy : Option String → Bool
  | none => false
  | some s => !(s == "")

/-! ### Regular expressions

A small backtracking regex engine covering exactly the constructs used by the
five literal patterns of `src/index.js`: character classes with greedy `+`,
`*`, lazy `+?`, greedy `?` on a sub-pattern, a literal word, a negative
lookahead over literal words, and the `$` end anchor.  `tryMatch` returns the
possible remaining suffixes in JS backtracking preference order (greedy
quantifiers prefer longer consumption, lazy ones shorter); `firstMatchAux`
implements the leftmost-match rule of `String.prototype.match`. -/

inductive RE where
  | cls (p : Char → Bool)
  | lit (w : List Char)
  | seq (a b : RE)
  | opt (a : RE)
  | starCls (p : Char → Bool)
  | plusCls (p : Char → Bool)
  | plusClsLazy (p : Char → Bool)
  | nla (ws : List (List Char))
  | eos

/-- All ways `re` can match a prefix of `cs`, as the list of remaining
suffixes in backtracking preference order. -/
def RE.tryMatch : RE → List Char → List (List Char)
  | .cls _, [] => []
  | .cls p, c :: cs => if p c then [cs] else []
  | .lit w, cs => if w.isPrefixOf cs then [cs.drop w.length] else []
  | .seq a b, cs => (a.tryMatch cs).flatMap b.tryMatch
  | .opt a, cs => a.tryMatch cs ++ [cs]
  | .starCls p, cs =>
    (List.range ((cs.takeWhile p).length + 1)).map
      (fun j => cs.drop ((cs.takeWhile p).length - j))
  | .plusCls p, cs =>
    (List.range (cs.takeWhile p).length).map
      (fun j => cs.drop ((cs.takeWhile p).length - j))
  | .plusClsLazy p, cs =>
    (List.range (cs.takeWhile p).length).map (fun j => cs.drop (j + 1))
  | .nla ws, cs => if ws.any (fun w => w.isPrefixOf cs) then [] else [cs]
  | .eos, [] => [[]]
  | .eos, _ :: _ => []

/-- Whether `re` matches somewhere in `cs` (the truthiness of JS
`s.match(re)`): try every start position left to right. -/
def RE.testAux (re : RE) : List Char → Bool
  | [] => !(re.tryMatch []).isEmpty
  | c :: cs => !(re.tryMatch (c :: cs)).isEmpty || re.testAux cs

/-- Truthiness of `s.match(re)`. -/
def RE.test (re : RE) (s : String) : Bool :=
  re.testAux s.data

/-- Value of `s.match(re)[0]` when a match exists: the leftmost match, and at the
leftmost position the first alternative in backtracking preference order. -/
def RE.firstMatchAux (re : RE) : List Char → Option (List Char)
  | [] =>
    match re.tryMatch [] with
    | [] => none
    | _ :: _ => some []
  | c :: cs =>
    match re.tryMatch (c :: cs) with
    | suf :: _ => some ((c :: cs).take ((c :: cs).length - suf.length))
    | [] => re.firstMatchAux cs

/-- Result of `s.match(re)`: `none` models the `null` result. -/
def RE.firstMatch (re : RE) (s : String) : Option String :=
  (re.firstMatchAux s.data).map (fun m => (⟨m⟩ : String))

/-! Character classes of the source's patterns. -/

/-- Class `[a-z]`. -/
def isLowerAZ (c : Char) : Bool := 'a' ≤ c && c ≤ 'z'

/-- Class `\w` = `[A-Za-z0-9_]`. -/
def isWordChar (c : Char) : Bool :=
  ('a' ≤ c && c ≤ 'z') || ('A' ≤ c && c ≤ 'Z') || ('0' ≤ c && c ≤ '9') || c = '_'

/-- Class `[a-z-0-9]` = lowercase Latin, hyphen, or digit. -/
def isLeafSeg (c : Char) : Bool :=
  ('a' ≤ c && c ≤ 'z') || c = '-' || ('0' ≤ c && c ≤ '9')

/-- Class `[a-z-]`. -/
def isLowerHyphen (c : Char) : Bool :=
  ('a' ≤ c && c ≤ 'z') || c = '-'

/-- Class `[А-Яа-яё-]`: Cyrillic letters (uppercase А–Я, lowercase а–я, ё) or
hyphen. -/
def isRusNameChar (c : Char) : Bool :=
  ('А' ≤ c && c ≤ 'Я') || ('а' ≤ c && c ≤ 'я') || c = 'ё' || c = '-'

/-- Class `[А-Яа-яё\s]`. -/
def isRusOrWs (c : Char) : Bool :=
  ('А' ≤ c && c ≤ 'Я') || ('а' ≤ c && c ≤ 'я') || c = 'ё' || isJsWs c

/-- Class `[a-zA-Z]`. -/
def isLatinLetter (c : Char) : Bool :=
  ('a' ≤ c && c ≤ 'z') || ('A' ≤ c && c ≤ 'Z')

/-- Pattern `/\/(?!reference|en)[a-z]+\/\w+\/[a-z-0-9]+?\/$/` — the leaf-detail URL
shape of `getItems`'s first branch. -/
def reLeaf : RE :=
  .seq (.cls (· = '/'))
    (.seq (.nla ["reference".data, "en".data])
      (.seq (.plusCls isLowerAZ)
        (.seq (.cls (· = '/'))
          (.seq (.plusCls isWordChar)
            (.seq (.cls (· = '/'))
              (.seq (.plusClsLazy isLeafSeg)
                (.seq (.cls (· = '/')) .eos)))))))

/-- Pattern `/(reference)\/\w+\/$/` — the first heading shape of `getItems`. -/
def reHeading1 : RE :=
  .seq (.lit "reference".data)
    (.seq (.cls (· = '/'))
      (.seq (.plusCls isWordChar)
        (.seq (.cls (· = '/')) .eos)))

/-- Pattern `/(reference)\/\w+\/[a-z-]+\/$/` — the second heading shape of
`getItems`. -/
def reHeading2 : RE :=
  .seq (.lit "reference".data)
    (.seq (.cls (· = '/'))
      (.seq (.plusCls isWordChar)
        (.seq (.cls (· = '/'))
          (.seq (.plusCls isLowerHyphen)
            (.seq (.cls (· = '/')) .eos)))))

/-- Pattern `/[А-Яа-яё-]+\s*[А-Яа-яё\s]*(\((?:[А-Яа-яё\s]+)\))?/` — the Russian-name
pattern of `extractRusName`. -/
def reRusName : RE :=
  .seq (.plusCls isRusNameChar)
    (.seq (.starCls isJsWs)
      (.seq (.starCls isRusOrWs)
        (.opt (.seq (.cls (· = '('))
          (.seq (.plusCls isRusOrWs) (.cls (· = ')')))))))

/-- Pattern `/[a-zA-Z]+\s?[a-zA-Z]+/` — the Latin-name pattern of `extractLatName`. -/
def reLatName : RE :=
  .seq (.plusCls isLatinLetter)
    (.seq (.opt (.cls isJsWs)) (.plusCls isLatinLetter))

/-! ### Link discovery (`getItems`) -/

/-- An anchor element of the listing page: its absolute `href` and its
visible `textContent` (never `null`/`undefined` in the DOM, but possibly
empty). -/
structure Anchor where
  href : String
  textContent : String
deriving DecidableEq, Repr

/-- The body of the `Array.from` mapper in `getItems`: a leaf-shaped href
yields the href itself, a heading-shaped href yields the anchor text, anything
else yields `null`. -/
def classifyAnchor (a : Anchor) : Option String :=
  if reLeaf.test a.href then some a.href
  else if reHeading1.test a.href then some a.textContent
  else if reHeading2.test a.href then some a.textContent
  else none

/-- Model of `getItems`: map every anchor through `classifyAnchor` and drop the
`null`/`undefined` entries (empty strings survive the filter). -/
def getItems (anchors : List Anchor) : List String :=
  (anchors.map classifyAnchor).filterMap id

/-! ### Classification (`extractOrder`, `extractFamily`) -/

/-- Model of `extractOrder`: the token itself when it equals its own uppercasing,
`null` otherwise. -/
def extractOrder (url : String) : Option String :=
  if jsToUpperCase url = url then some url else none

/-- Model of `extractFamily`: the token itself when its first character equals that
character's uppercasing, `null` otherwise; on the empty string `url[0]` is
`undefined` and `.toUpperCase()` throws a `TypeError`. -/
def extractFamily (url : String) : Except JsError (Option String) :=
  match url.data with
  | [] => .error .typeError
  | c :: _ => if jsCharToUpper c = c then .ok (some url) else .ok none

/-! ### Field extraction -/

/-- A rendered leaf document as the scraper reads it: the text of
`article h1`, `article p:nth-of-type(1)` and `article p:nth-of-type(2)`;
`none` means the selector matches no element (so `$eval` throws). -/
structure PageDoc where
  h1 : Option String
  p1 : Option String
  p2 : Option String
deriving DecidableEq, Repr

/-- Model of `extractRusName` on the heading text: `title.match(re)[0].trim()`; a
`null` match makes `[0]` throw a `TypeError`. -/
def extractRusName (title : String) : Except JsError String :=
  match reRusName.firstMatch title with
  | none => .error .typeError
  | some m => .ok (jsTrim m)

/-- Model of `extractLatName` on the heading text. -/
def extractLatName (title : String) : Except JsError String :=
  match reLatName.firstMatch title with
  | none => .error .typeError
  | some m => .ok (jsTrim m)

/-- Model of `extractSigns` on the first paragraph's text:
`signs.replace('Признаки. ', '')`. -/
def extractSigns (text : String) : String :=
  jsReplaceFirst text "Признаки. "

/-- Model of `extractHabitat` on the second paragraph's text:
`habitat.replace('Местообитание. ', '')`. -/
def extractHabitat (text : String) : String :=
  jsReplaceFirst text "Местообитание. "

/-- Model of `extractRusName(page)`: `$eval('article h1')` then the match. -/
def extractRusNameDoc (doc : PageDoc) : Except JsError String :=
  match doc.h1 with
  | none => .error .selectorError
  | some title => extractRusName title

/-- Model of `extractLatName(page)`. -/
def extractLatNameDoc (doc : PageDoc) : Except JsError String :=
  match doc.h1 with
  | none => .error .selectorError
  | some title => extractLatName title

/-- Model of `extractSigns(page)`: `$eval('article p:nth-of-type(1)')` then the
replace. -/
def extractSignsDoc (doc : PageDoc) : Except JsError String :=
  match doc.p1 with
  | none => .error .selectorError
  | some text => .ok (extractSigns text)

/-- Model of `extractHabitat(page)`: `$eval('article p:nth-of-type(2)')` then the
replace. -/
def extractHabitatDoc (doc : PageDoc) : Except JsError String :=
  match doc.p2 with
  | none => .error .selectorError
  | some text => .ok (extractHabitat text)

/-- The four per-leaf fields (`birdDetails` in the source). -/
structure BirdFields where
  rusName : String
  latName : String
  signs : String
  habitat : String
deriving DecidableEq, Repr

/-- The four awaited extractions of the loop body of `getBirdsData`, in
source order (the first failing one aborts). -/
def extractFields (doc : PageDoc) : Except JsError BirdFields := do
  let rusName ← extractRusNameDoc doc
  let latName ← extractLatNameDoc doc
  let signs ← extractSignsDoc doc
  let habitat ← extractHabitatDoc doc
  return ⟨rusName, latName, signs, habitat⟩

/-! ### Traversal engine (`getBirdsData`) -/

/-- The mutable `birdClassification` object: its `order`/`family` properties
start absent and are overwritten by markers. -/
structure BirdClassification where
  order : Option String
  family : Option String
deriving DecidableEq, Repr

/-- A bird record: `{...birdClassification, ...birdDetails}`. -/
structure Bird where
  order : Option String
  family : Option String
  rusName : String
  latName : String
  signs : String
  habitat : String
deriving DecidableEq, Repr

/-- Merge the context snapshot with the extracted fields
(`{...birdClassification, ...birdDetails}`). -/
def mkBird (ctx : BirdClassification) (f : BirdFields) : Bird :=
  ⟨ctx.order, ctx.family, f.rusName, f.latName, f.signs, f.habitat⟩

/-- What one loop iteration of `getBirdsData` decides for a candidate token:
set the order, set the family, or fall through to the leaf-visit branch. -/
inductive Classification where
  | order (t : String)
  | family (t : String)
  | leaf (t : String)
deriving DecidableEq, Repr

/-- The decision of one loop iteration of `getBirdsData`: compute
`extractOrder` and `extractFamily` (the latter throws on the empty token),
then take the first truthy one; with both falsy the token reaches
`page.goto(item)` — there is no discard branch. -/
def classify (item : String) : Except JsError Classification :=
  let order := extractOrder item
  match extractFamily item with
  | .error e => .error e
  | .ok family =>
    if jsTruthy order then .ok (.order item)
    else if jsTruthy family then .ok (.family item)
    else .ok (.leaf item)

/-- The outcome of a completed traversal: the accumulated `birdsData`
records, plus the trace of URLs passed to `page.goto` (instrumentation making
page visits observable; the source performs exactly these calls). -/
structure TraversalResult where
  birds : List Bird
  visited : List String
deriving DecidableEq, Repr

/-- The `for (const item of items)` loop of `getBirdsData`, with the page
modelled as an oracle from URL to document (`none` = `goto` rejects).  An
order marker overwrites `birdClassification.order`, a family marker
overwrites `.family`; any other token is navigated to, the four fields are
extracted, and the merged record is appended.  Any thrown error aborts the
whole loop. -/
def goBirds (site : String → Option PageDoc) :
    List String → BirdClassification → Except JsError TraversalResult
  | [], _ => .ok ⟨[], []⟩
  | item :: rest, ctx =>
    match classify item with
    | .error e => .error e
    | .ok (.order t) => goBirds site rest ⟨some t, ctx.family⟩
    | .ok (.family t) => goBirds site rest ⟨ctx.order, some t⟩
    | .ok (.leaf t) =>
      match site t with
      | none => .error .navigationFailure
      | some doc =>
        match extractFields doc with
        | .error e => .error e
        | .ok f =>
          match goBirds site rest ctx with
          | .error e => .error e
          | .ok res => .ok ⟨mkBird ctx f :: res.birds, t :: res.visited⟩

/-- Model of `getBirdsData` run over an already-discovered candidate list, starting
from the empty classification context. -/
def birdsFromItems (site : String → Option PageDoc) (items : List String) :
    Except JsError TraversalResult :=
  goBirds site items ⟨none, none⟩

/-- Model of `getBirdsData(page)`: discover the candidates with `getItems`, then run
the loop. -/
def getBirdsData (site : String → Option PageDoc) (anchors : List Anchor) :
    Except JsError TraversalResult :=
  birdsFromItems site (getItems anchors)

/-! ### Derived notions used to state the claims -/

/-- Relation `MatchSplit re cs suf`: the pattern `re` can match some prefix of `cs`,
leaving exactly the suffix `suf` unconsumed.  This is the declarative
semantics the executable matcher `RE.tryMatch` is proved sound and complete
for. -/
inductive MatchSplit : RE → List Char → List Char → Prop where
  | cls {p : Char → Bool} {c : Char} {cs : List Char} (h : p c = true) :
      MatchSplit (.cls p) (c :: cs) cs
  | lit (w cs : List Char) : MatchSplit (.lit w) (w ++ cs) cs
  | seq {a b : RE} {cs mid suf : List Char}
      (ha : MatchSplit a cs mid) (hb : MatchSplit b mid suf) :
      MatchSplit (.seq a b) cs suf
  | optSome {a : RE} {cs suf : List Char} (h : MatchSplit a cs suf) :
      MatchSplit (.opt a) cs suf
  | optNone {a : RE} {cs : List Char} : MatchSplit (.opt a) cs cs
  | starCls {p : Char → Bool} {cs : List Char} (k : Nat)
      (hk : k ≤ (cs.takeWhile p).length) :
      MatchSplit (.starCls p) cs (cs.drop k)
  | plusCls {p : Char → Bool} {cs : List Char} (k : Nat)
      (h1 : 1 ≤ k) (hk : k ≤ (cs.takeWhile p).length) :
      MatchSplit (.plusCls p) cs (cs.drop k)
  | plusClsLazy {p : Char → Bool} {cs : List Char} (k : Nat)
      (h1 : 1 ≤ k) (hk : k ≤ (cs.takeWhile p).length) :
      MatchSplit (.plusClsLazy p) cs (cs.drop k)
  | nla {ws : List (List Char)} {cs : List Char}
      (h : ∀ w ∈ ws, w.isPrefixOf cs = false) : MatchSplit (.nla ws) cs cs
  | eos : MatchSplit .eos [] []

/-- The pattern matches somewhere in the string (at any start position). -/
def RMatches (re : RE) (s : String) : Prop :=
  ∃ t, t <:+ s.data ∧ ∃ suf, MatchSplit re t suf

/-- The candidate token is classified as an order marker by the loop of
`getBirdsData`. -/
def isOrderTokB (t : String) : Bool :=
  match classify t with
  | .ok (.order _) => true
  | _ => false

/-- The candidate token is classified as a family marker. -/
def isFamilyTokB (t : String) : Bool :=
  match classify t with
  | .ok (.family _) => true
  | _ => false

/-- The candidate token falls through to the leaf-visit branch. -/
def isLeafTokB (t : String) : Bool :=
  match classify t with
  | .ok (.leaf _) => true
  | _ => false

/-- How many of the candidates are leaves (records emitted so far when the
list is a processed prefix). -/
def countLeaves (l : List String) : Nat :=
  (l.filter isLeafTokB).length

/-- The token of the most recent candidate in `l` satisfying `q` (later
candidates take precedence), or `none` when no such candidate exists — the
"most recent marker classified strictly before" of the specification. -/
def lastMarker (q : String → Bool) : List String → Option String
  | [] => none
  | p :: ps =>
    match lastMarker q ps with
    | some x => some x
    | none => if q p then some p else none

/-- The classification context obtained after processing a candidate prefix:
order markers overwrite `order`, family markers overwrite `family`, leaves
and erroneous tokens leave the context unchanged. -/
def foldCtx : List String → BirdClassification → BirdClassification
  | [], ctx => ctx
  | p :: ps, ctx =>
    match classify p with
    | .ok (.order t) => foldCtx ps ⟨some t, ctx.family⟩
    | .ok (.family t) => foldCtx ps ⟨ctx.order, some t⟩
    | _ => foldCtx ps ctx

/-- An uppercase letter of the alphabets this model covers (ASCII Latin or
Russian Cyrillic). -/
def isUpperAlpha (c : Char) : Bool :=
  ('A' ≤ c && c ≤ 'Z') || ('А' ≤ c && c ≤ 'Я') || c = 'Ё'

deriving instance DecidableEq for Except

end PeipsiBirds

namespace PeipsiBirds

theorem mem_tryMatch_iff : ∀ {re : RE} {cs suf : List Char},
    suf ∈ re.tryMatch cs ↔ MatchSplit re cs suf := by
  intro re
  induction re with
  | cls p =>
    intro cs suf
    cases cs with
    | nil =>
      simp only [RE.tryMatch, List.not_mem_nil, false_iff]
      intro h; cases h
    | cons c cs =>
      simp only [RE.tryMatch]
      constructor
      · intro h
        split at h
        · simp only [List.mem_singleton] at h
          subst h
          exact MatchSplit.cls (by assumption)
        · simp at h
      · intro h
        cases h with
        | cls hp => simp [hp]
  | lit w =>
    intro cs suf
    simp only [RE.tryMatch]
    constructor
    · intro h
      split at h
      · simp only [List.mem_singleton] at h
        subst h
        rename_i hpre
        obtain ⟨t, ht⟩ := List.isPrefixOf_iff_prefix.mp hpre
        subst ht
        rw [List.drop_left]
        exact MatchSplit.lit w t
      · simp at h
    · intro h
      cases h
      rw [if_pos ( List.isPrefixOf_iff_prefix.mpr (List.prefix_append w suf))]
      simp [List.drop_left]
  | seq a b iha ihb =>
    intro cs suf
    simp only [RE.tryMatch, List.mem_flatMap]
    constructor
    · rintro ⟨mid, hmid, hsuf⟩
      exact MatchSplit.seq (iha.mp hmid) (ihb.mp hsuf)
    · intro h
      cases h with
      | seq ha hb => exact ⟨_, iha.mpr ha, ihb.mpr hb⟩
  | opt a iha =>
    intro cs suf
    simp only [RE.tryMatch, List.mem_append, List.mem_singleton]
    constructor
    · rintro (h | rfl)
      · exact MatchSplit.optSome (iha.mp h)
      · exact MatchSplit.optNone
    · intro h
      cases h with
      | optSome h => exact Or.inl (iha.mpr h)
      | optNone => exact Or.inr rfl
  | starCls p =>
    intro cs suf
    simp only [RE.tryMatch, List.mem_map, List.mem_range]
    constructor
    · rintro ⟨j, hj, rfl⟩
      exact MatchSplit.starCls _ (by omega)
    · intro h
      cases h with
      | starCls k hk =>
        exact ⟨(cs.takeWhile p).length - k, by omega, by congr 1; omega⟩
  | plusCls p =>
    intro cs suf
    simp only [RE.tryMatch, List.mem_map, List.mem_range]
    constructor
    · rintro ⟨j, hj, rfl⟩
      exact MatchSplit.plusCls _ (by omega) (by omega)
    · intro h
      cases h with
      | plusCls k h1 hk =>
        exact ⟨(cs.takeWhile p).length - k, by omega, by congr 1; omega⟩
  | plusClsLazy p =>
    intro cs suf
    simp only [RE.tryMatch, List.mem_map, List.mem_range]
    constructor
    · rintro ⟨j, hj, rfl⟩
      exact MatchSplit.plusClsLazy _ (by omega) (by omega)
    · intro h
      cases h with
      | plusClsLazy k h1 hk =>
        exact ⟨k - 1, by omega, by congr 1; omega⟩
  | nla ws =>
    intro cs suf
    simp only [RE.tryMatch]
    constructor
    · intro h
      split at h
      · simp at h
      · simp only [List.mem_singleton] at h
        subst h
        rename_i hany
        refine MatchSplit.nla ?_
        intro w hw
        rw [List.any_eq_true] at hany
        push_neg at hany
        simp only [Bool.eq_false_iff, ne_eq, List.isPrefixOf_iff_prefix]
        have := hany w hw
        simp only [ne_eq, List.isPrefixOf_iff_prefix] at this
        exact this
    · intro h
      cases h with
      | nla hws =>
        rw [if_neg]
        · simp
        · rw [List.any_eq_true]
          rintro ⟨w, hw, hpre⟩
          rw [hws w hw] at hpre
          cases hpre
  | eos =>
    intro cs suf
    cases cs with
    | nil =>
      simp only [RE.tryMatch, List.mem_singleton]
      constructor
      · rintro rfl; exact MatchSplit.eos
      · intro h; cases h; rfl
    | cons c cs =>
      simp only [RE.tryMatch, List.not_mem_nil, false_iff]
      intro h; cases h

end PeipsiBirds

namespace PeipsiBirds

theorem tryMatch_ne_nil_iff {re : RE} {cs : List Char} :
    re.tryMatch cs ≠ [] ↔ ∃ suf, MatchSplit re cs suf := by
  constructor
  · intro h
    match hm : re.tryMatch cs with
    | [] => exact absurd hm h
    | x :: xs =>
      exact ⟨x, mem_tryMatch_iff.mp (hm ▸ List.mem_cons_self x xs)⟩
  · rintro ⟨suf, h⟩ hnil
    exact List.eq_nil_iff_forall_not_mem.mp hnil suf (mem_tryMatch_iff.mpr h)

theorem testAux_eq_true_iff {re : RE} : ∀ {cs : List Char},
    re.testAux cs = true ↔ ∃ t, t <:+ cs ∧ ∃ suf, MatchSplit re t suf := by
  intro cs
  induction cs with
  | nil =>
    simp only [RE.testAux, Bool.not_eq_true', List.isEmpty_eq_false]
    rw [tryMatch_ne_nil_iff]
    constructor
    · rintro ⟨suf, h⟩
      exact ⟨[], List.suffix_refl [], suf, h⟩
    · rintro ⟨t, ht, suf, h⟩
      rw [List.suffix_nil] at ht
      subst ht
      exact ⟨suf, h⟩
  | cons c cs ih =>
    simp only [RE.testAux, Bool.or_eq_true, Bool.not_eq_true', List.isEmpty_eq_false]
    rw [tryMatch_ne_nil_iff, ih]
    constructor
    · rintro (⟨suf, h⟩ | ⟨t, ht, suf, h⟩)
      · exact ⟨c :: cs, List.suffix_refl _, suf, h⟩
      · exact ⟨t, ht.trans (List.suffix_cons c cs), suf, h⟩
    · rintro ⟨t, ht, suf, h⟩
      rw [List.suffix_cons_iff] at ht
      rcases ht with rfl | ht
      · exact Or.inl ⟨suf, h⟩
      · exact Or.inr ⟨t, ht, suf, h⟩

theorem test_eq_true_iff {re : RE} {s : String} :
    re.test s = true ↔ RMatches re s :=
  testAux_eq_true_iff

theorem firstMatchAux_eq_none_iff {re : RE} : ∀ {cs : List Char},
    re.firstMatchAux cs = none ↔ ∀ t, t <:+ cs → re.tryMatch t = [] := by
  intro cs
  induction cs with
  | nil =>
    simp only [RE.firstMatchAux]
    constructor
    · intro h t ht
      rw [List.suffix_nil] at ht
      subst ht
      split at h
      · assumption
      · cases h
    · intro h
      rw [h [] (List.suffix_refl [])]
  | cons c cs ih =>
    simp only [RE.firstMatchAux]
    constructor
    · intro h t ht
      split at h
      · cases h
      · rw [List.suffix_cons_iff] at ht
        rcases ht with rfl | ht
        · assumption
        · exact ih.mp h t ht
    · intro h
      split
      · rename_i suf rest hm
        rw [h (c :: cs) (List.suffix_refl _)] at hm
        cases hm
      · exact ih.mpr (fun t ht => h t (ht.trans (List.suffix_cons c cs)))

theorem firstMatch_eq_none_iff {re : RE} {s : String} :
    re.firstMatch s = none ↔ ¬ RMatches re s := by
  rw [RE.firstMatch, Option.map_eq_none', firstMatchAux_eq_none_iff]
  unfold RMatches
  constructor
  · intro h
    rintro ⟨t, ht, suf, hm⟩
    exact tryMatch_ne_nil_iff.mpr ⟨suf, hm⟩ (h t ht)
  · intro h t ht
    by_contra hne
    obtain ⟨suf, hm⟩ := tryMatch_ne_nil_iff.mp hne
    exact h ⟨t, ht, suf, hm⟩

end PeipsiBirds

namespace PeipsiBirds


theorem data_ne_nil_of_ne_empty {s : String} (h : s ≠ "") : s.data ≠ [] := by
  intro hd
  exact h (String.ext hd)

theorem extractFamily_cons {tok : String} {c : Char} {cs : List Char}
    (hd : tok.data = c :: cs) :
    extractFamily tok =
      if jsCharToUpper c = c then Except.ok (some tok) else Except.ok none := by
  unfold extractFamily
  rw [hd]

theorem classify_of_all_upper {tok : String}
    (h1 : tok ≠ "") (h2 : jsToUpperCase tok = tok) :
    classify tok = .ok (.order tok) := by
  have hd := data_ne_nil_of_ne_empty h1
  unfold classify
  cases htd : tok.data with
  | nil => exact absurd htd hd
  | cons c cs =>
    have hfam : ∃ v, extractFamily tok = .ok v := by
      rw [extractFamily_cons htd]
      by_cases hcc : jsCharToUpper c = c
      · exact ⟨some tok, if_pos hcc⟩
      · exact ⟨none, if_neg hcc⟩
    obtain ⟨v, hv⟩ := hfam
    rw [hv]
    have hord : extractOrder tok = some tok := by
      unfold extractOrder
      rw [if_pos h2]
    rw [hord]
    simp [jsTruthy, h1]

theorem jsCharToUpper_of_upperAlpha {c : Char} (h : isUpperAlpha c = true) :
    jsCharToUpper c = c := by
  have h' : ('A' ≤ c ∧ c ≤ 'Z' ∨ 'А' ≤ c ∧ c ≤ 'Я') ∨ c = 'Ё' := by
    simpa [isUpperAlpha, Bool.or_eq_true, Bool.and_eq_true,
      decide_eq_true_eq] using h
  unfold jsCharToUpper
  rcases h' with (⟨hl, hr⟩ | ⟨hl, hr⟩) | rfl
  · rw [if_neg, if_neg, if_neg]
    · intro he
      rw [he] at hr
      exact absurd hr (by decide)
    · rintro ⟨ha, _⟩
      exact absurd (le_trans ha hr) (by decide)
    · rintro ⟨ha, _⟩
      exact absurd (le_trans ha hr) (by decide)
  · rw [if_neg, if_neg, if_neg]
    · intro he
      rw [he] at hr
      exact absurd hr (by decide)
    · rintro ⟨ha, hb⟩
      exact absurd (le_trans ha hr) (by decide)
    · rintro ⟨ha, hb⟩
      exact absurd (le_trans hl hb) (by decide)
  · rw [if_neg, if_neg, if_neg] <;> decide

theorem classify_of_family {tok : String} {c : Char} {cs : List Char}
    (hd : tok.data = c :: cs) (hc : jsCharToUpper c = c)
    (hup : jsToUpperCase tok ≠ tok) :
    classify tok = .ok (.family tok) := by
  have h1 : tok ≠ "" := by
    intro he
    rw [he] at hd
    cases hd
  unfold classify
  rw [extractFamily_cons hd, if_pos hc]
  have hord : extractOrder tok = none := by
    unfold extractOrder
    rw [if_neg hup]
  rw [hord]
  simp [jsTruthy, h1]

theorem classify_of_leaf {tok : String} {c : Char} {cs : List Char}
    (hd : tok.data = c :: cs) (hc : jsCharToUpper c ≠ c)
    (hup : jsToUpperCase tok ≠ tok) :
    classify tok = .ok (.leaf tok) := by
  unfold classify
  rw [extractFamily_cons hd, if_neg hc]
  have hord : extractOrder tok = none := by
    unfold extractOrder
    rw [if_neg hup]
  rw [hord]
  simp [jsTruthy]

theorem classify_empty : classify "" = .error .typeError := rfl

theorem goBirds_order_step {site : String → Option PageDoc} {tok : String}
    {rest : List String} {ctx : BirdClassification}
    (h : classify tok = .ok (.order tok)) :
    goBirds site (tok :: rest) ctx = goBirds site rest ⟨some tok, ctx.family⟩ := by
  rw [goBirds, h]

theorem goBirds_family_step {site : String → Option PageDoc} {tok : String}
    {rest : List String} {ctx : BirdClassification}
    (h : classify tok = .ok (.family tok)) :
    goBirds site (tok :: rest) ctx = goBirds site rest ⟨ctx.order, some tok⟩ := by
  rw [goBirds, h]

theorem goBirds_error_step {site : String → Option PageDoc} {tok : String}
    {rest : List String} {ctx : BirdClassification} {e : JsError}
    (h : classify tok = .error e) :
    goBirds site (tok :: rest) ctx = .error e := by
  rw [goBirds, h]

end PeipsiBirds

namespace PeipsiBirds

theorem goBirds_leaf_nav_fail {site : String → Option PageDoc} {tok : String}
    {rest : List String} {ctx : BirdClassification}
    (h : classify tok = .ok (.leaf tok)) (hs : site tok = none) :
    goBirds site (tok :: rest) ctx = .error .navigationFailure := by
  simp only [goBirds, h, hs]

theorem goBirds_leaf_extract_fail {site : String → Option PageDoc} {tok : String}
    {rest : List String} {ctx : BirdClassification} {doc : PageDoc} {e : JsError}
    (h : classify tok = .ok (.leaf tok)) (hs : site tok = some doc)
    (he : extractFields doc = .error e) :
    goBirds site (tok :: rest) ctx = .error e := by
  simp only [goBirds, h, hs, he]

theorem goBirds_leaf_ok {site : String → Option PageDoc} {tok : String}
    {rest : List String} {ctx : BirdClassification} {doc : PageDoc} {f : BirdFields}
    (h : classify tok = .ok (.leaf tok)) (hs : site tok = some doc)
    (he : extractFields doc = .ok f) :
    goBirds site (tok :: rest) ctx =
      (goBirds site rest ctx).map
        (fun res => ⟨mkBird ctx f :: res.birds, tok :: res.visited⟩) := by
  simp only [goBirds, h, hs, he]
  cases goBirds site rest ctx <;> rfl

theorem isLeafTokB_eq_true_iff {t : String} :
    isLeafTokB t = true ↔ ∃ u, classify t = .ok (.leaf u) := by
  unfold isLeafTokB
  constructor
  · intro h
    split at h
    · rename_i u heq
      exact ⟨u, heq⟩
    · cases h
  · rintro ⟨u, hu⟩
    rw [hu]

theorem classify_order_self {t u : String} (h : classify t = .ok (.order u)) :
    u = t := by
  unfold classify at h
  cases hf : extractFamily t with
  | error e =>
    rw [hf] at h
    cases h
  | ok fam =>
    rw [hf] at h
    dsimp only at h
    by_cases h1 : jsTruthy (extractOrder t) = true
    · rw [if_pos h1] at h
      cases h
      rfl
    · rw [if_neg h1] at h
      by_cases h2 : jsTruthy fam = true
      · rw [if_pos h2] at h
        cases h
      · rw [if_neg h2] at h
        cases h

theorem classify_family_self {t u : String} (h : classify t = .ok (.family u)) :
    u = t := by
  unfold classify at h
  cases hf : extractFamily t with
  | error e =>
    rw [hf] at h
    cases h
  | ok fam =>
    rw [hf] at h
    dsimp only at h
    by_cases h1 : jsTruthy (extractOrder t) = true
    · rw [if_pos h1] at h
      cases h
    · rw [if_neg h1] at h
      by_cases h2 : jsTruthy fam = true
      · rw [if_pos h2] at h
        cases h
        rfl
      · rw [if_neg h2] at h
        cases h

theorem classify_leaf_self {t u : String} (h : classify t = .ok (.leaf u)) :
    u = t := by
  unfold classify at h
  cases hf : extractFamily t with
  | error e =>
    rw [hf] at h
    cases h
  | ok fam =>
    rw [hf] at h
    dsimp only at h
    by_cases h1 : jsTruthy (extractOrder t) = true
    · rw [if_pos h1] at h
      cases h
    · rw [if_neg h1] at h
      by_cases h2 : jsTruthy fam = true
      · rw [if_pos h2] at h
        cases h
      · rw [if_neg h2] at h
        cases h
        rfl

end PeipsiBirds

namespace PeipsiBirds

theorem countLeaves_cons_of_not_leaf {p : String} {pre : List String}
    (h : isLeafTokB p = false) :
    countLeaves (p :: pre) = countLeaves pre := by
  unfold countLeaves
  rw [List.filter_cons_of_neg (by simp [h])]

theorem countLeaves_cons_of_leaf {p : String} {pre : List String}
    (h : isLeafTokB p = true) :
    countLeaves (p :: pre) = countLeaves pre + 1 := by
  unfold countLeaves
  rw [List.filter_cons_of_pos (by simp [h])]
  simp [Nat.add_comm]

theorem goBirds_leaf_context (site : String → Option PageDoc)
    (pre : List String) :
    ∀ (ctx : BirdClassification) (t : String) (post : List String)
      (res : TraversalResult),
      goBirds site (pre ++ t :: post) ctx = .ok res → isLeafTokB t = true →
      (res.birds[countLeaves pre]?).map (fun b => (b.order, b.family)) =
        some ((foldCtx pre ctx).order, (foldCtx pre ctx).family) := by
  induction pre with
  | nil =>
    intro ctx t post res h hleaf
    rw [List.nil_append] at h
    obtain ⟨u, hu⟩ := isLeafTokB_eq_true_iff.mp hleaf
    rw [classify_leaf_self hu] at hu
    rw [goBirds, hu] at h
    dsimp only at h
    cases hs : site t with
    | none =>
      rw [hs] at h
      cases h
    | some doc =>
      rw [hs] at h
      dsimp only at h
      cases he : extractFields doc with
      | error e =>
        rw [he] at h
        cases h
      | ok f =>
        rw [he] at h
        cases hr : goBirds site post ctx with
        | error e =>
          rw [hr] at h
          cases h
        | ok res' =>
          rw [hr] at h
          cases h
          simp [countLeaves, foldCtx, mkBird]
  | cons p pre ih =>
    intro ctx t post res h hleaf
    rw [List.cons_append] at h
    cases hc : classify p with
    | error e =>
      rw [goBirds_error_step hc] at h
      cases h
    | ok cl =>
      cases cl with
      | order u =>
        have huu := classify_order_self hc
        subst huu
        rw [goBirds_order_step hc] at h
        have hres := ih _ t post res h hleaf
        rw [countLeaves_cons_of_not_leaf (by simp only [isLeafTokB, hc])]
        have hfold : foldCtx (u :: pre) ctx = foldCtx pre ⟨some u, ctx.family⟩ := by
          simp only [foldCtx, hc]
        rw [hfold]
        exact hres
      | family u =>
        have huu := classify_family_self hc
        subst huu
        rw [goBirds_family_step hc] at h
        have hres := ih _ t post res h hleaf
        rw [countLeaves_cons_of_not_leaf (by simp only [isLeafTokB, hc])]
        have hfold : foldCtx (u :: pre) ctx = foldCtx pre ⟨ctx.order, some u⟩ := by
          simp only [foldCtx, hc]
        rw [hfold]
        exact hres
      | leaf u =>
        have huu := classify_leaf_self hc
        subst huu
        rw [goBirds, hc] at h
        dsimp only at h
        cases hs : site u with
        | none =>
          rw [hs] at h
          cases h
        | some doc =>
          rw [hs] at h
          dsimp only at h
          cases he : extractFields doc with
          | error e =>
            rw [he] at h
            cases h
          | ok f =>
            rw [he] at h
            cases hr : goBirds site (pre ++ t :: post) ctx with
            | error e =>
              rw [hr] at h
              cases h
            | ok res' =>
              rw [hr] at h
              cases h
              have hres := ih ctx t post res' hr hleaf
              rw [countLeaves_cons_of_leaf (by simp only [isLeafTokB, hc])]
              have hfold : foldCtx (u :: pre) ctx = foldCtx pre ctx := by
                simp only [foldCtx, hc]
              rw [hfold]
              simpa using hres

end PeipsiBirds

namespace PeipsiBirds

theorem foldCtx_order (pre : List String) :
    ∀ ctx : BirdClassification,
      (foldCtx pre ctx).order = (lastMarker isOrderTokB pre).or ctx.order := by
  induction pre with
  | nil => intro ctx; rfl
  | cons p ps ih =>
    intro ctx
    cases hc : classify p with
    | error e =>
      have h1 : foldCtx (p :: ps) ctx = foldCtx ps ctx := by
        simp only [foldCtx, hc]
      have h2 : isOrderTokB p = false := by
        simp only [isOrderTokB, hc]
      rw [h1, ih, lastMarker, h2]
      cases lastMarker isOrderTokB ps <;> rfl
    | ok cl =>
      cases cl with
      | order u =>
        have huu := classify_order_self hc
        subst huu
        have h1 : foldCtx (u :: ps) ctx = foldCtx ps ⟨some u, ctx.family⟩ := by
          simp only [foldCtx, hc]
        have h2 : isOrderTokB u = true := by
          simp only [isOrderTokB, hc]
        rw [h1, ih, lastMarker, h2]
        cases lastMarker isOrderTokB ps <;> rfl
      | family u =>
        have h1 : foldCtx (p :: ps) ctx = foldCtx ps ⟨ctx.order, some u⟩ := by
          simp only [foldCtx, hc]
        have h2 : isOrderTokB p = false := by
          simp only [isOrderTokB, hc]
        rw [h1, ih, lastMarker, h2]
        cases lastMarker isOrderTokB ps <;> rfl
      | leaf u =>
        have h1 : foldCtx (p :: ps) ctx = foldCtx ps ctx := by
          simp only [foldCtx, hc]
        have h2 : isOrderTokB p = false := by
          simp only [isOrderTokB, hc]
        rw [h1, ih, lastMarker, h2]
        cases lastMarker isOrderTokB ps <;> rfl

theorem foldCtx_family (pre : List String) :
    ∀ ctx : BirdClassification,
      (foldCtx pre ctx).family = (lastMarker isFamilyTokB pre).or ctx.family := by
  induction pre with
  | nil => intro ctx; rfl
  | cons p ps ih =>
    intro ctx
    cases hc : classify p with
    | error e =>
      have h1 : foldCtx (p :: ps) ctx = foldCtx ps ctx := by
        simp only [foldCtx, hc]
      have h2 : isFamilyTokB p = false := by
        simp only [isFamilyTokB, hc]
      rw [h1, ih, lastMarker, h2]
      cases lastMarker isFamilyTokB ps <;> rfl
    | ok cl =>
      cases cl with
      | order u =>
        have h1 : foldCtx (p :: ps) ctx = foldCtx ps ⟨some u, ctx.family⟩ := by
          simp only [foldCtx, hc]
        have h2 : isFamilyTokB p = false := by
          simp only [isFamilyTokB, hc]
        rw [h1, ih, lastMarker, h2]
        cases lastMarker isFamilyTokB ps <;> rfl
      | family u =>
        have huu := classify_family_self hc
        subst huu
        have h1 : foldCtx (u :: ps) ctx = foldCtx ps ⟨ctx.order, some u⟩ := by
          simp only [foldCtx, hc]
        have h2 : isFamilyTokB u = true := by
          simp only [isFamilyTokB, hc]
        rw [h1, ih, lastMarker, h2]
        cases lastMarker isFamilyTokB ps <;> rfl
      | leaf u =>
        have h1 : foldCtx (p :: ps) ctx = foldCtx ps ctx := by
          simp only [foldCtx, hc]
        have h2 : isFamilyTokB p = false := by
          simp only [isFamilyTokB, hc]
        rw [h1, ih, lastMarker, h2]
        cases lastMarker isFamilyTokB ps <;> rfl

theorem lastMarker_eq_find_reverse (q : String → Bool) (l : List String) :
    lastMarker q l = l.reverse.find? q := by
  induction l with
  | nil => rfl
  | cons p ps ih =>
    rw [lastMarker, List.reverse_cons, List.find?_append, ih]
    cases hqp : q p
    · cases ps.reverse.find? q <;> simp [List.find?_cons, hqp]
    · cases ps.reverse.find? q <;> simp [List.find?_cons, hqp]

end PeipsiBirds

namespace PeipsiBirds

/-- Claim C1 (confirmed). Context-carry invariant: in any traversal over an ordered
candidate list that completes successfully, the record emitted for a leaf
candidate carries, as its `order` (resp. `family`) field, the token of the
most recent order (resp. family) marker classified strictly before that leaf
in traversal order, and the field is absent (`none`, no placeholder value)
when no such marker precedes the leaf. -/
theorem context_carry_invariant (site : String → Option PageDoc)
    (items : List String) (res : TraversalResult) (pre : List String)
    (t : String) (post : List String)
    (h : birdsFromItems site items = .ok res)
    (hsplit : items = pre ++ t :: post)
    (hleaf : isLeafTokB t = true) :
    (res.birds[countLeaves pre]?).map (fun b => (b.order, b.family)) =
      some (lastMarker isOrderTokB pre, lastMarker isFamilyTokB pre) := by
  subst hsplit
  have hmain := goBirds_leaf_context site pre ⟨none, none⟩ t post res h hleaf
  rw [hmain, foldCtx_order, foldCtx_family]
  cases lastMarker isOrderTokB pre <;> cases lastMarker isFamilyTokB pre <;> rfl

/-- Witness for C1: a traversal of an order marker, a family marker and one
leaf; the single emitted record carries exactly those two tokens. -/
theorem context_carry_invariant_witness :
    ((⟨[⟨some "ПОГАНКООБРАЗНЫЕ", some "Поганковые", "Чомга", "Podiceps cristatus",
        "Крупная птица с хохолком.", "Крупные озёра."⟩],
      ["https://birds.peipsi.org/poganki/chomga/bolshaya/"]⟩ :
        TraversalResult).birds[countLeaves ["ПОГАНКООБРАЗНЫЕ", "Поганковые"]]?).map
        (fun b => (b.order, b.family)) =
      some (lastMarker isOrderTokB ["ПОГАНКООБРАЗНЫЕ", "Поганковые"],
        lastMarker isFamilyTokB ["ПОГАНКООБРАЗНЫЕ", "Поганковые"]) :=
  context_carry_invariant
    (fun u => if u = "https://birds.peipsi.org/poganki/chomga/bolshaya/" then
       some ⟨some "Чомга Podiceps cristatus", some "Признаки. Крупная птица с хохолком.",
         some "Местообитание. Крупные озёра."⟩ else none)
    (["ПОГАНКООБРАЗНЫЕ", "Поганковые"] ++
      "https://birds.peipsi.org/poganki/chomga/bolshaya/" :: [])
    ⟨[⟨some "ПОГАНКООБРАЗНЫЕ", some "Поганковые", "Чомга", "Podiceps cristatus",
        "Крупная птица с хохолком.", "Крупные озёра."⟩],
      ["https://birds.peipsi.org/poganki/chomga/bolshaya/"]⟩
    ["ПОГАНКООБРАЗНЫЕ", "Поганковые"]
    "https://birds.peipsi.org/poganki/chomga/bolshaya/" []
    (by decide) rfl (by decide)

end PeipsiBirds

namespace PeipsiBirds

/-- Claim C5 (confirmed). An all-uppercase (and hence nonempty) heading token is classified
as an order marker carrying that token — never as a family marker — and the
traversal engine sets the context's `order` field to the token and moves on
without visiting any page and without appending a record: the step is exactly
the recursion on the remaining candidates with the updated context. -/
theorem order_marker_classification (tok : String)
    (site : String → Option PageDoc) (ctx : BirdClassification)
    (rest : List String)
    (h1 : tok ≠ "") (h2 : jsToUpperCase tok = tok) :
    classify tok = .ok (.order tok) ∧
    isFamilyTokB tok = false ∧
    goBirds site (tok :: rest) ctx = goBirds site rest ⟨some tok, ctx.family⟩ := by
  have hc := classify_of_all_upper h1 h2
  exact ⟨hc, by simp only [isFamilyTokB, hc], goBirds_order_step hc⟩

/-- Witness for C5 at the uppercase token `"ПОГАНКООБРАЗНЫЕ"`, an unreachable
site and the empty context. -/
theorem order_marker_classification_witness :
    classify "ПОГАНКООБРАЗНЫЕ" = .ok (.order "ПОГАНКООБРАЗНЫЕ") ∧
    isFamilyTokB "ПОГАНКООБРАЗНЫЕ" = false ∧
    goBirds (fun _ => none) ["ПОГАНКООБРАЗНЫЕ"] ⟨none, none⟩ =
      goBirds (fun _ => none) [] ⟨some "ПОГАНКООБРАЗНЫЕ", none⟩ :=
  order_marker_classification "ПОГАНКООБРАЗНЫЕ" (fun _ => none) ⟨none, none⟩ []
    (by decide) (by decide)

/-- Claim C6 (confirmed). A heading token whose first character is an uppercase letter and
which is not entirely uppercase is classified as a family marker carrying
that token, and the traversal engine sets the context's `family` field to the
token and moves on without visiting any page and without appending a
record. -/
theorem family_marker_classification (tok : String) (c : Char) (cs : List Char)
    (site : String → Option PageDoc) (ctx : BirdClassification)
    (rest : List String)
    (hd : tok.data = c :: cs) (hu : isUpperAlpha c = true)
    (h2 : jsToUpperCase tok ≠ tok) :
    classify tok = .ok (.family tok) ∧
    isOrderTokB tok = false ∧
    goBirds site (tok :: rest) ctx = goBirds site rest ⟨ctx.order, some tok⟩ := by
  have hc := classify_of_family hd (jsCharToUpper_of_upperAlpha hu) h2
  exact ⟨hc, by simp only [isOrderTokB, hc], goBirds_family_step hc⟩

/-- Witness for C6 at the capitalised token `"Поганковые"`. -/
theorem family_marker_classification_witness :
    classify "Поганковые" = .ok (.family "Поганковые") ∧
    isOrderTokB "Поганковые" = false ∧
    goBirds (fun _ => none) ["Поганковые"] ⟨none, none⟩ =
      goBirds (fun _ => none) [] ⟨none, some "Поганковые"⟩ :=
  family_marker_classification "Поганковые" 'П' "оганковые".data
    (fun _ => none) ⟨none, none⟩ [] (by decide) (by decide) (by decide)

end PeipsiBirds

namespace PeipsiBirds

/-- Counterexample to C2: the lowercase heading token `"птицы"` (classified
neither as order nor as family) is *not* discarded by the loop of
`getBirdsData`: with a site where navigation to `"птицы"` succeeds, the
traversal navigates to the token (`visited = ["птицы"]`) and appends a
record for it, whereas the claim requires no page navigation and no record
(which for this single-candidate listing would mean the result
`⟨[], []⟩`). -/
theorem discard_claim_counterexample :
    getBirdsData
      (fun _ => some ⟨some "Чомга Podiceps cristatus", some "Признаки. Хохолок.",
        some "Местообитание. Озеро."⟩)
      [⟨"https://birds.peipsi.org/reference/poganki/", "птицы"⟩] =
      .ok ⟨[⟨none, none, "Чомга", "Podiceps cristatus", "Хохолок.", "Озеро."⟩],
        ["птицы"]⟩ ∧
    getBirdsData
      (fun _ => some ⟨some "Чомга Podiceps cristatus", some "Признаки. Хохолок.",
        some "Местообитание. Озеро."⟩)
      [⟨"https://birds.peipsi.org/reference/poganki/", "птицы"⟩] ≠
      .ok ⟨[], []⟩ := by
  constructor
  · decide
  · decide

/-- Claim C2 as amended. A candidate token that is neither entirely uppercase nor
begins with a character equal to its own uppercase is *not* discarded: the
engine performs no context update, but treats the token as a leaf URL and
navigates to it — if navigation fails the whole traversal aborts with a
navigation failure, and if navigation and field extraction succeed a record
carrying the unchanged context is appended before the remaining candidates
are processed. -/
theorem lowercase_token_treated_as_leaf (tok : String) (c : Char)
    (cs : List Char) (siteN site : String → Option PageDoc)
    (ctx : BirdClassification) (rest : List String) (doc : PageDoc)
    (flds : BirdFields)
    (hd : tok.data = c :: cs) (hfc : jsCharToUpper c ≠ c)
    (hup : jsToUpperCase tok ≠ tok)
    (hN : siteN tok = none) (hS : site tok = some doc)
    (hf : extractFields doc = .ok flds) :
    classify tok = .ok (.leaf tok) ∧
    goBirds siteN (tok :: rest) ctx = .error .navigationFailure ∧
    goBirds site (tok :: rest) ctx =
      (goBirds site rest ctx).map
        (fun r => ⟨mkBird ctx flds :: r.birds, tok :: r.visited⟩) := by
  have hc := classify_of_leaf hd hfc hup
  exact ⟨hc, goBirds_leaf_nav_fail hc hN, goBirds_leaf_ok hc hS hf⟩

/-- Witness for the amended C2 at the lowercase token `"птицы"`. -/
theorem lowercase_token_treated_as_leaf_witness :
    classify "птицы" = .ok (.leaf "птицы") ∧
    goBirds (fun _ => none) ["птицы"] ⟨none, none⟩ = .error .navigationFailure ∧
    goBirds
      (fun _ => some ⟨some "Чомга Podiceps cristatus", some "Признаки. Хохолок.",
        some "Местообитание. Озеро."⟩) ["птицы"] ⟨none, none⟩ =
      (goBirds
        (fun _ => some ⟨some "Чомга Podiceps cristatus", some "Признаки. Хохолок.",
          some "Местообитание. Озеро."⟩) [] ⟨none, none⟩).map
        (fun r => ⟨mkBird ⟨none, none⟩ ⟨"Чомга", "Podiceps cristatus", "Хохолок.",
          "Озеро."⟩ :: r.birds, "птицы" :: r.visited⟩) :=
  lowercase_token_treated_as_leaf "птицы" 'п' "тицы".data (fun _ => none)
    (fun _ => some ⟨some "Чомга Podiceps cristatus", some "Признаки. Хохолок.",
      some "Местообитание. Озеро."⟩)
    ⟨none, none⟩ []
    ⟨some "Чомга Podiceps cristatus", some "Признаки. Хохолок.",
      some "Местообитание. Озеро."⟩
    ⟨"Чомга", "Podiceps cristatus", "Хохолок.", "Озеро."⟩
    (by decide) (by decide) (by decide) rfl rfl (by decide)

end PeipsiBirds

namespace PeipsiBirds

/-- Claim C9 (confirmed). Fail-fast on malformed leaf pages: when a visited leaf page lacks
the expected structure (any of the four extractions fails — for example the
second paragraph is missing, the concrete third conjunct), or navigation to
the leaf fails, the whole traversal aborts with that error at that leaf:
the result is an error for *every* list of remaining candidates, so no
record (partial or otherwise) is appended for the leaf and no subsequent
candidate is processed. -/
theorem malformed_leaf_aborts (site : String → Option PageDoc)
    (ctx : BirdClassification) (t : String) (rest : List String)
    (doc : PageDoc) (e : JsError) (siteN : String → Option PageDoc)
    (ctx2 : BirdClassification) (t2 : String) (rest2 : List String)
    (hleaf : classify t = .ok (.leaf t))
    (hsite : site t = some doc)
    (hext : extractFields doc = .error e)
    (hleaf2 : classify t2 = .ok (.leaf t2))
    (hnav : siteN t2 = none) :
    goBirds site (t :: rest) ctx = .error e ∧
    goBirds siteN (t2 :: rest2) ctx2 = .error .navigationFailure ∧
    extractFields ⟨some "Чомга Podiceps cristatus", some "Признаки. Хохолок.",
      none⟩ = .error .selectorError := by
  refine ⟨goBirds_leaf_extract_fail hleaf hsite hext,
    goBirds_leaf_nav_fail hleaf2 hnav, ?_⟩
  decide

/-- Witness for C9: a leaf whose page misses the second paragraph aborts the
traversal with the selector error even though further candidates remain. -/
theorem malformed_leaf_aborts_witness :
    goBirds
      (fun _ => some ⟨some "Чомга Podiceps cristatus", some "Признаки. Хохолок.",
        none⟩)
      ["https://birds.peipsi.org/poganki/chomga/bolshaya/", "ПТИЦЫ"] ⟨none, none⟩ =
      .error .selectorError ∧
    goBirds (fun _ => none)
      ["https://birds.peipsi.org/poganki/chomga/bolshaya/"] ⟨none, none⟩ =
      .error .navigationFailure ∧
    extractFields ⟨some "Чомга Podiceps cristatus", some "Признаки. Хохолок.",
      none⟩ = .error .selectorError :=
  malformed_leaf_aborts
    (fun _ => some ⟨some "Чомга Podiceps cristatus", some "Признаки. Хохолок.",
      none⟩)
    ⟨none, none⟩ "https://birds.peipsi.org/poganki/chomga/bolshaya/" ["ПТИЦЫ"]
    ⟨some "Чомга Podiceps cristatus", some "Признаки. Хохолок.", none⟩
    .selectorError (fun _ => none) ⟨none, none⟩
    "https://birds.peipsi.org/poganki/chomga/bolshaya/" []
    (by decide) rfl (by decide) (by decide) rfl

/-- Claim C10 (confirmed). A heading anchor with empty visible text yields the empty-string
candidate token, which survives the `null`/`undefined` filter of `getItems`;
when the loop of `getBirdsData` classifies it, `extractFamily` evaluates
`""[0].toUpperCase()` on `undefined` and throws, so the whole traversal
aborts with a `TypeError` instead of discarding the candidate. -/
theorem empty_text_token_aborts (href : String)
    (site : String → Option PageDoc) (ctx : BirdClassification)
    (rest : List String)
    (hhead : reHeading1.test href = true ∨ reHeading2.test href = true)
    (hleaf : reLeaf.test href = false) :
    getItems [⟨href, ""⟩] = [""] ∧
    goBirds site ("" :: rest) ctx = .error .typeError ∧
    getBirdsData site [⟨href, ""⟩] = .error .typeError := by
  have hitems : getItems [⟨href, ""⟩] = [""] := by
    rcases hhead with h | h
    · simp [getItems, classifyAnchor, hleaf, h]
    · by_cases h1 : reHeading1.test href = true
      · simp [getItems, classifyAnchor, hleaf, h1]
      · simp [getItems, classifyAnchor, hleaf, h1, h]
  refine ⟨hitems, goBirds_error_step classify_empty, ?_⟩
  unfold getBirdsData birdsFromItems
  rw [hitems]
  exact goBirds_error_step classify_empty

/-- Witness for C10 at the heading href
`"https://birds.peipsi.org/reference/poganki/"` with empty anchor text. -/
theorem empty_text_token_aborts_witness :
    getItems [⟨"https://birds.peipsi.org/reference/poganki/", ""⟩] = [""] ∧
    goBirds (fun _ => none) [""] ⟨none, none⟩ = .error .typeError ∧
    getBirdsData (fun _ => none)
      [⟨"https://birds.peipsi.org/reference/poganki/", ""⟩] = .error .typeError :=
  empty_text_token_aborts "https://birds.peipsi.org/reference/poganki/"
    (fun _ => none) ⟨none, none⟩ [] (Or.inl (by decide)) (by decide)

end PeipsiBirds

namespace PeipsiBirds

/-- Claim C7 (confirmed). Field stripping on the heading `"Чомга Podiceps cristatus"`: the
Russian-name extraction returns exactly `"Чомга"` (leftmost match of the
Cyrillic pattern, whitespace-trimmed) and the Latin-name extraction returns
exactly `"Podiceps cristatus"` (leftmost match of the one-or-two-Latin-word
pattern, trimmed). -/
theorem heading_extraction_example :
    extractRusName "Чомга Podiceps cristatus" = .ok "Чомга" ∧
    extractLatName "Чомга Podiceps cristatus" = .ok "Podiceps cristatus" := by
  constructor
  · decide
  · decide

/-- Claim C8 (confirmed). The Russian-name and Latin-name extractions raise the JS
`TypeError` (from `null[0]`) exactly when their pattern has no match anywhere
in the heading text, and return a value exactly when the pattern matches. -/
theorem name_extraction_error_iff_no_match (title : String) :
    (extractRusName title = .error .typeError ↔ ¬ RMatches reRusName title) ∧
    ((∃ v, extractRusName title = .ok v) ↔ RMatches reRusName title) ∧
    (extractLatName title = .error .typeError ↔ ¬ RMatches reLatName title) ∧
    ((∃ v, extractLatName title = .ok v) ↔ RMatches reLatName title) := by
  have habs : ∀ re : RE, ∀ h : RE.firstMatch re title = none,
      ¬ RMatches re title := fun re h => firstMatch_eq_none_iff.mp h
  have hpos : ∀ re : RE, ∀ m, RE.firstMatch re title = some m →
      RMatches re title := by
    intro re m hm
    by_contra hr
    rw [← firstMatch_eq_none_iff] at hr
    rw [hm] at hr
    cases hr
  refine ⟨?_, ?_, ?_, ?_⟩
  · unfold extractRusName
    cases hm : reRusName.firstMatch title with
    | none => simpa using habs _ hm
    | some m => simpa using hpos _ m hm
  · unfold extractRusName
    cases hm : reRusName.firstMatch title with
    | none =>
      simp only [iff_iff_implies_and_implies]
      constructor
      · rintro ⟨v, hv⟩
        cases hv
      · intro h
        exact absurd h (habs _ hm)
    | some m => simpa using hpos _ m hm
  · unfold extractLatName
    cases hm : reLatName.firstMatch title with
    | none => simpa using habs _ hm
    | some m => simpa using hpos _ m hm
  · unfold extractLatName
    cases hm : reLatName.firstMatch title with
    | none =>
      simp only [iff_iff_implies_and_implies]
      constructor
      · rintro ⟨v, hv⟩
        cases hv
      · intro h
        exact absurd h (habs _ hm)
    | some m => simpa using hpos _ m hm

end PeipsiBirds

namespace PeipsiBirds

theorem replaceFirstAux_strip_leading {pat rest : List Char} {c : Char} {cs : List Char}
    (hp : pat = c :: cs) : replaceFirstAux pat (pat ++ rest) = rest := by
  subst hp
  rw [List.cons_append, replaceFirstAux,
    if_pos ( List.isPrefixOf_iff_prefix.mpr (by
      rw [← List.cons_append]
      exact List.prefix_append _ _)),
    ← List.cons_append, List.drop_left]

theorem replaceFirstAux_no_occurrence {pat : List Char} : ∀ {l : List Char},
    ¬ pat <:+: l → replaceFirstAux pat l = l := by
  intro l
  induction l with
  | nil => intro h; rfl
  | cons c cs ih =>
    intro h
    rw [replaceFirstAux, if_neg, ih (fun hi => h ( List.infix_cons hi))]
    intro hp
    exact h ( List.IsPrefix.isInfix ( List.isPrefixOf_iff_prefix.mp hp))

/-- Counterexample to C4: the label literal is removed even when it occurs
only in the middle of the paragraph text — JS `String.prototype.replace`
deletes the first occurrence anywhere, not only a leading one.  C4 requires
`extractSigns "ab Признаки. cd"` to leave the text unchanged; the code
returns `"ab cd"`. -/
theorem signs_strip_counterexample :
    extractSigns "ab Признаки. cd" = "ab cd" ∧
    extractSigns "ab Признаки. cd" ≠ "ab Признаки. cd" := by
  constructor
  · decide
  · decide

/-- Claim C4 as amended. The operation `extractSigns` removes the *first occurrence* of the
literal `"Признаки. "` wherever it appears, and returns the rest of the text
verbatim: a text without the literal is returned unchanged, a leading
occurrence is stripped (in particular the spec's example paragraph), and an
occurrence that is not at the start of the text is removed as well (not left
in place); `extractHabitat` behaves the same way for `"Местообитание. "`. -/
theorem label_strip_first_occurrence (s t rest : String)
    (hs : ¬ "Признаки. ".data <:+: s.data)
    (ht : ¬ "Местообитание. ".data <:+: t.data) :
    extractSigns s = s ∧
    extractHabitat t = t ∧
    extractSigns ("Признаки. " ++ rest) = rest ∧
    extractHabitat ("Местообитание. " ++ rest) = rest ∧
    extractSigns "xy Признаки. z" = "xy z" ∧
    extractHabitat "xy Местообитание. z" = "xy z" := by
  refine ⟨?_, ?_, ?_, ?_, by decide, by decide⟩
  · unfold extractSigns jsReplaceFirst
    rw [replaceFirstAux_no_occurrence hs]
  · unfold extractHabitat jsReplaceFirst
    rw [replaceFirstAux_no_occurrence ht]
  · unfold extractSigns jsReplaceFirst
    rw [String.data_append, replaceFirstAux_strip_leading rfl]
  · unfold extractHabitat jsReplaceFirst
    rw [String.data_append, replaceFirstAux_strip_leading rfl]

/-- Witness for the amended C4, at the spec's example paragraph and two
label-free texts. -/
theorem label_strip_first_occurrence_witness :
    extractSigns "Крупная птица." = "Крупная птица." ∧
    extractHabitat "Озеро." = "Озеро." ∧
    extractSigns ("Признаки. " ++ "Крупная птица с хохолком.") =
      "Крупная птица с хохолком." ∧
    extractHabitat ("Местообитание. " ++ "Крупная птица с хохолком.") =
      "Крупная птица с хохолком." ∧
    extractSigns "xy Признаки. z" = "xy z" ∧
    extractHabitat "xy Местообитание. z" = "xy z" :=
  label_strip_first_occurrence "Крупная птица." "Озеро."
    "Крупная птица с хохолком." (by decide) (by decide)

end PeipsiBirds

namespace PeipsiBirds

theorem takeWhile_append_cons {p : Char → Bool} : ∀ {l1 : List Char} {x : Char}
    {l2 : List Char}, (∀ c ∈ l1, p c = true) → p x = false →
    (l1 ++ x :: l2).takeWhile p = l1 := by
  intro l1
  induction l1 with
  | nil =>
    intro x l2 h hx
    simp [List.takeWhile_cons, hx]
  | cons a as ih =>
    intro x l2 h hx
    rw [List.cons_append, List.takeWhile_cons,
      if_pos (h a (List.mem_cons_self a as)),
      ih (fun c hc => h c (List.mem_cons_of_mem a hc)) hx]

theorem prefix_of_append_cons {x : Char} : ∀ {pat l1 l2 : List Char},
    x ∉ pat → pat <+: (l1 ++ x :: l2) → pat <+: l1 := by
  intro pat
  induction pat with
  | nil =>
    intro l1 l2 _ _
    exact List.nil_prefix
  | cons a as ih =>
    intro l1 l2 hx hp
    cases l1 with
    | nil =>
      rw [List.nil_append] at hp
      obtain ⟨rfl, -⟩ := List.cons_prefix_cons.mp hp
      exact absurd (List.mem_cons_self _ _) hx
    | cons b bs =>
      rw [List.cons_append] at hp
      obtain ⟨rfl, htl⟩ := List.cons_prefix_cons.mp hp
      exact List.cons_prefix_cons.mpr
        ⟨rfl, ih (fun hm => hx (List.mem_cons_of_mem _ hm)) htl⟩

theorem isPrefixOf_append_cons_eq_false {w s1 r : List Char}
    (hslash : '/' ∉ w) (hnp : ¬ w <+: s1) :
    w.isPrefixOf (s1 ++ '/' :: r) = false := by
  rw [Bool.eq_false_iff]
  intro h
  exact hnp (prefix_of_append_cons hslash ( List.isPrefixOf_iff_prefix.mp h))

theorem reLeaf_matchSplit {s1 s2 s3 : List Char}
    (h1ne : s1 ≠ []) (h1 : ∀ c ∈ s1, isLowerAZ c = true)
    (href : ¬ "reference".data <+: s1) (hen : ¬ "en".data <+: s1)
    (h2ne : s2 ≠ []) (h2 : ∀ c ∈ s2, isWordChar c = true)
    (h3ne : s3 ≠ []) (h3 : ∀ c ∈ s3, isLeafSeg c = true) :
    MatchSplit reLeaf
      ('/' :: (s1 ++ '/' :: (s2 ++ '/' :: (s3 ++ ['/'])))) [] := by
  refine MatchSplit.seq (MatchSplit.cls (by decide)) ?_
  refine MatchSplit.seq (MatchSplit.nla ?_) ?_
  · intro w hw
    simp only [List.mem_cons, List.not_mem_nil, or_false] at hw
    rcases hw with rfl | rfl
    · exact isPrefixOf_append_cons_eq_false (by decide) href
    · exact isPrefixOf_append_cons_eq_false (by decide) hen
  · have hs1 : MatchSplit (.plusCls isLowerAZ)
        (s1 ++ '/' :: (s2 ++ '/' :: (s3 ++ ['/'])))
        ((s1 ++ '/' :: (s2 ++ '/' :: (s3 ++ ['/']))).drop s1.length) :=
      MatchSplit.plusCls s1.length
        (List.length_pos.mpr h1ne)
        (by rw [takeWhile_append_cons h1 (by decide)])
    rw [List.drop_left] at hs1
    refine MatchSplit.seq hs1 ?_
    refine MatchSplit.seq (MatchSplit.cls (by decide)) ?_
    have hs2 : MatchSplit (.plusCls isWordChar)
        (s2 ++ '/' :: (s3 ++ ['/']))
        ((s2 ++ '/' :: (s3 ++ ['/'])).drop s2.length) :=
      MatchSplit.plusCls s2.length
        (List.length_pos.mpr h2ne)
        (by rw [takeWhile_append_cons h2 (by decide)])
    rw [List.drop_left] at hs2
    refine MatchSplit.seq hs2 ?_
    refine MatchSplit.seq (MatchSplit.cls (by decide)) ?_
    have hs3 : MatchSplit (.plusClsLazy isLeafSeg)
        (s3 ++ ['/']) ((s3 ++ ['/']).drop s3.length) :=
      MatchSplit.plusClsLazy s3.length
        (List.length_pos.mpr h3ne)
        (by rw [takeWhile_append_cons h3 (by decide)])
    rw [List.drop_left] at hs3
    refine MatchSplit.seq hs3 ?_
    exact MatchSplit.seq (MatchSplit.cls (by decide)) MatchSplit.eos

end PeipsiBirds

namespace PeipsiBirds

/-- Counterexample to C3: the URL `".../enot/lisa/volk/"` has the required
shape and its first segment `"enot"` is not the *literal* segment `"en"`, so
the claim requires link discovery to keep it as a leaf candidate with the
URL itself as token — but the negative lookahead `(?!reference|en)` rejects
any first segment merely *starting with* `"en"`, and the anchor is discarded
entirely (`getItems` drops it, against the claimed `[url]`). -/
theorem leaf_candidate_counterexample :
    getItems [⟨"https://birds.peipsi.org/enot/lisa/volk/", "Чомга"⟩] = [] ∧
    classifyAnchor ⟨"https://birds.peipsi.org/enot/lisa/volk/", "Чомга"⟩ = none ∧
    getItems [⟨"https://birds.peipsi.org/enot/lisa/volk/", "Чомга"⟩] ≠
      ["https://birds.peipsi.org/enot/lisa/volk/"] := by
  refine ⟨by decide, by decide, by decide⟩

/-- Claim C3 as amended. For every anchor whose URL ends with `/s1/s2/s3/` where
`s1` is a nonempty lowercase-letter segment that does not *begin with*
`reference` or `en` (the exclusion is a prefix test, not a literal-segment
test: a first segment such as `enot`, which merely starts with `en`, is
rejected — fourth conjunct — rather than kept), `s2` a nonempty word segment
and `s3` a nonempty lowercase-alphanumeric-or-hyphen segment, link discovery
keeps the anchor as a leaf candidate whose discriminant token is the URL
itself, regardless of the anchor text. -/
theorem leaf_candidate_kept (base s1 s2 s3 : List Char) (text : String)
    (h1ne : s1 ≠ []) (h1 : ∀ c ∈ s1, isLowerAZ c = true)
    (href : ¬ "reference".data <+: s1) (hen : ¬ "en".data <+: s1)
    (h2ne : s2 ≠ []) (h2 : ∀ c ∈ s2, isWordChar c = true)
    (h3ne : s3 ≠ []) (h3 : ∀ c ∈ s3, isLeafSeg c = true) :
    reLeaf.test ⟨base ++ '/' :: (s1 ++ '/' :: (s2 ++ '/' :: (s3 ++ ['/'])))⟩ =
      true ∧
    classifyAnchor ⟨⟨base ++ '/' :: (s1 ++ '/' :: (s2 ++ '/' :: (s3 ++ ['/'])))⟩,
      text⟩ = some ⟨base ++ '/' :: (s1 ++ '/' :: (s2 ++ '/' :: (s3 ++ ['/'])))⟩ ∧
    getItems [⟨⟨base ++ '/' :: (s1 ++ '/' :: (s2 ++ '/' :: (s3 ++ ['/'])))⟩,
      text⟩] = [⟨base ++ '/' :: (s1 ++ '/' :: (s2 ++ '/' :: (s3 ++ ['/'])))⟩] ∧
    reLeaf.test "https://birds.peipsi.org/enot/lisa/volk/" = false := by
  have htest : reLeaf.test
      ⟨base ++ '/' :: (s1 ++ '/' :: (s2 ++ '/' :: (s3 ++ ['/'])))⟩ = true := by
    rw [RE.test]
    exact testAux_eq_true_iff.mpr
      ⟨'/' :: (s1 ++ '/' :: (s2 ++ '/' :: (s3 ++ ['/']))),
        List.suffix_append base _,
        [], reLeaf_matchSplit h1ne h1 href hen h2ne h2 h3ne h3⟩
  have hcl : classifyAnchor
      ⟨⟨base ++ '/' :: (s1 ++ '/' :: (s2 ++ '/' :: (s3 ++ ['/'])))⟩, text⟩ =
      some ⟨base ++ '/' :: (s1 ++ '/' :: (s2 ++ '/' :: (s3 ++ ['/'])))⟩ := by
    unfold classifyAnchor
    rw [if_pos htest]
  refine ⟨htest, hcl, ?_, by decide⟩
  unfold getItems
  rw [List.map_cons, List.map_nil, hcl]
  rfl

/-- Witness for the amended C3 at the leaf URL
`"https://birds.peipsi.org/poganki/chomga/bolshaya/"`. -/
theorem leaf_candidate_kept_witness :
    reLeaf.test ⟨"https://birds.peipsi.org".data ++ '/' :: ("poganki".data ++
      '/' :: ("chomga".data ++ '/' :: ("bolshaya".data ++ ['/'])))⟩ = true ∧
    classifyAnchor ⟨⟨"https://birds.peipsi.org".data ++ '/' :: ("poganki".data ++
      '/' :: ("chomga".data ++ '/' :: ("bolshaya".data ++ ['/'])))⟩, "Чомга"⟩ =
      some ⟨"https://birds.peipsi.org".data ++ '/' :: ("poganki".data ++
        '/' :: ("chomga".data ++ '/' :: ("bolshaya".data ++ ['/'])))⟩ ∧
    getItems [⟨⟨"https://birds.peipsi.org".data ++ '/' :: ("poganki".data ++
      '/' :: ("chomga".data ++ '/' :: ("bolshaya".data ++ ['/'])))⟩, "Чомга"⟩] =
      [⟨"https://birds.peipsi.org".data ++ '/' :: ("poganki".data ++
        '/' :: ("chomga".data ++ '/' :: ("bolshaya".data ++ ['/'])))⟩] ∧
    reLeaf.test "https://birds.peipsi.org/enot/lisa/volk/" = false :=
  leaf_candidate_kept "https://birds.peipsi.org".data "poganki".data
    "chomga".data "bolshaya".data "Чомга"
    (by decide) (by decide) (by decide) (by decide)
    (by decide) (by decide) (by decide) (by decide)

end PeipsiBirds
